import Mathlib

/-!
Shallow embedding of the album-visualizer now-playing pipeline (src/app.py)
and proofs about its documented behaviour.

External effects are made explicit: subprocess outputs become string
parameters, the filesystem becomes a predicate, the network becomes an
oracle function, and the module-level cover cache becomes an explicit
state value threaded through calls.  Machine floats in the source carry
only small decimal values here, so they are modelled by rationals.

String primitives of the source language (strip, lower, split, `in`,
startswith, slicing) are re-implemented structurally on the underlying
character lists so that every definition evaluates inside the kernel.
-/

namespace AlbumViz

/-- Drops leading and trailing whitespace, modelling Python str.strip()
(on the ASCII whitespace the program encounters). -/
def wsTrim (l : List Char) : List Char :=
  ((l.dropWhile Char.isWhitespace).reverse.dropWhile Char.isWhitespace).reverse

/-- String form of wsTrim. -/
def strTrim (s : String) : String :=
  ⟨wsTrim s.data⟩

/-- Splits a character list at every occurrence of the separator, keeping
empty pieces, modelling Python str.split(sep) for a one-character sep. -/
def splitChar (c : Char) : List Char → List (List Char)
  | [] => [[]]
  | a :: rest =>
    match splitChar c rest with
    | [] => [[a]]
    | h :: t => if a = c then [] :: h :: t else (a :: h) :: t

/-- String form of splitChar. -/
def strSplitChar (c : Char) (s : String) : List String :=
  (splitChar c s.data).map (fun l => (⟨l⟩ : String))

/-- Python membership test `c in s` for a single character. -/
def strContains (s : String) (c : Char) : Bool :=
  s.data.contains c

/-- Python str.lower() (ASCII case folding, which covers every string this
program compares). -/
def strToLower (s : String) : String :=
  ⟨s.data.map Char.toLower⟩

/-- Python substring test `n in h`: n occurs contiguously in h. -/
def isSubstrOf : List Char → List Char → Bool
  | n, [] => n.isEmpty
  | n, c :: rest => n.isPrefixOf (c :: rest) || isSubstrOf n rest

/-- Python str.startswith. -/
def strStartsWith (s pre : String) : Bool :=
  pre.data.isPrefixOf s.data

/-- Python slicing s[n:]. -/
def strDrop (s : String) (n : Nat) : String :=
  ⟨s.data.drop n⟩

/-- Value of a list of decimal digit characters. -/
def digitsToNat (l : List Char) : Nat :=
  l.foldl (fun acc c => 10 * acc + (c.toNat - 48)) 0

/-- Models Python's built-in int() applied to an optionally signed decimal
numeral with surrounding whitespace (the forms relevant to this program;
underscored numerals are not modelled).  Any other input raises ValueError
in Python, modelled as none. -/
def pyInt? (s : String) : Option Int :=
  let t := strTrim s
  let neg := strStartsWith t "-"
  let core := if strStartsWith t "-" || strStartsWith t "+" then strDrop t 1 else t
  if core ≠ "" ∧ core.data.all Char.isDigit then
    some (if neg then -(digitsToNat core.data : Int) else (digitsToNat core.data : Int))
  else none

/-- Models Python's built-in float() applied to an optionally signed decimal
numeral, with an optional single decimal point, and surrounding whitespace
(the forms playerctl emits; exponent and underscore forms are not
modelled).  Any other input raises ValueError in Python, modelled as none. -/
def pyFloat? (s : String) : Option ℚ :=
  let t := strTrim s
  let neg := strStartsWith t "-"
  let core := if strStartsWith t "-" || strStartsWith t "+" then strDrop t 1 else t
  match strSplitChar '.' core with
  | [a] =>
    if a ≠ "" ∧ a.data.all Char.isDigit then
      some (if neg then -(digitsToNat a.data : ℚ) else (digitsToNat a.data : ℚ))
    else none
  | [a, b] =>
    if (a ≠ "" ∨ b ≠ "") ∧ a.data.all Char.isDigit ∧ b.data.all Char.isDigit then
      let q : ℚ := (digitsToNat a.data : ℚ) + (digitsToNat b.data : ℚ) / ((10 : ℚ) ^ b.data.length)
      some (if neg then -q else q)
    else none
  | _ => none

/-- The dictionary produced by player_metadata (src/app.py lines 61-69). -/
structure Meta where
  title : String
  artist : String
  album : String
  artUrl : String
  player : String
  position : ℚ
  length : ℚ
deriving DecidableEq

/-- The length conversion of player_metadata (src/app.py lines 55-59):
length_seconds = int(length) / 1000000 if length else 0, with ValueError
defaulting to 0. -/
def lengthToSeconds (s : String) : ℚ :=
  if s = "" then 0
  else
    match pyInt? s with
    | some z => (z : ℚ) / 1000000
    | none => 0

/-- The position conversion of player_metadata (src/app.py lines 48-52):
position = float(position_raw) if position_raw else 0, with ValueError
defaulting to 0. -/
def parsePosition (s : String) : ℚ :=
  if s = "" then 0 else (pyFloat? s).getD 0

/-- Embedding of player_metadata (src/app.py lines 38-69).  raw is the
subprocess output of the metadata query, posRaw that of the position
query; the empty Python dict becomes none.  The source pads the split
with five empty strings and keeps the first five pieces. -/
def player_metadata (player raw posRaw : String) : Option Meta :=
  if raw = "" ∨ strContains raw '|' = false then none
  else
    some {
      title := strTrim ((((strSplitChar '|' raw) ++ ["", "", "", "", ""]).take 5).getD 0 "")
      artist := strTrim ((((strSplitChar '|' raw) ++ ["", "", "", "", ""]).take 5).getD 1 "")
      album := strTrim ((((strSplitChar '|' raw) ++ ["", "", "", "", ""]).take 5).getD 2 "")
      artUrl := strTrim ((((strSplitChar '|' raw) ++ ["", "", "", "", ""]).take 5).getD 3 "")
      player := player
      position := parsePosition posRaw
      length := lengthToSeconds ((((strSplitChar '|' raw) ++ ["", "", "", "", ""]).take 5).getD 4 "") }

/-- The membership test `name in p.lower()` of src/app.py line 30:
case-insensitive (on the player side) substring containment. -/
def matchesName (name p : String) : Bool :=
  isSubstrOf name.data (strToLower p).data

/-- The fixed preference order of src/app.py line 13. -/
def POLL_PLAYERS : List String :=
  ["chromium", "chrome", "google-chrome", "brave", "vivaldi", "firefox", "spotify"]

/-- Embedding of the ordering logic of list_players (src/app.py lines
29-33), generalized over the preference list: ordered is the nested list
comprehension over preference names, rest keeps the players that do not
occur in ordered. -/
def orderedPlayers (prefs players : List String) : List String :=
  let ordered := prefs.flatMap (fun name => players.filter (fun p => matchesName name p))
  ordered ++ players.filter (fun p => !(ordered.contains p))

/-- list_players (src/app.py lines 24-33) applied to the already-split
player list, with the fixed preference order. -/
def list_players (players : List String) : List String :=
  orderedPlayers POLL_PLAYERS players

/-- One image entry of the catalog response: Python dict access
img.get("size") and img.get("#text") become the two optional fields. -/
structure Image where
  size : Option String
  text : Option String
deriving DecidableEq

/-- The album object of the catalog response; image is present only when
the "image" key exists. -/
structure AlbumObj where
  image : Option (List Image)
deriving DecidableEq

/-- The track object of the catalog response. -/
structure TrackObj where
  album : Option AlbumObj
  image : Option (List Image)
deriving DecidableEq

/-- A parsed catalog response body. -/
structure LastfmData where
  track : Option TrackObj
deriving DecidableEq

/-- Python truthiness of an optional string (absent and empty are falsy). -/
def truthyText : Option String → Bool
  | none => false
  | some s => s ≠ ""

/-- The inner condition of the size-preference loop of _lastfm_cover
(src/app.py line 114): img.get("size") == size and img.get("#text"). -/
def entryOK (sz : String) (img : Image) : Bool :=
  img.size == some sz && truthyText img.text

/-- The descending size preference of src/app.py line 112. -/
def sizePrefNames : List String :=
  ["extralarge", "mega", "large", "medium"]

/-- The nested size-preference loops of _lastfm_cover (src/app.py lines
112-115): for each size name in order, return the first entry of that
size with a non-empty URL. -/
def trySizes (images : List Image) : List String → Option String
  | [] => none
  | sz :: rest =>
    match images.find? (entryOK sz) with
    | some img => img.text
    | none => trySizes images rest

/-- The image-selection block of _lastfm_cover (src/app.py lines 110-120):
size-preferred entry first, then the first entry with any non-empty URL,
else None. -/
def selectImage (images : List Image) : Option String :=
  match trySizes images sizePrefNames with
  | some u => some u
  | none =>
    match images.find? (fun img => truthyText img.text) with
    | some img => img.text
    | none => none

/-- The image-list choice of _lastfm_cover (src/app.py lines 103-108):
the album-level list when the album and its "image" key are present,
else the track-level list when its "image" key is present. -/
def imagesOf (d : LastfmData) : Option (List Image) :=
  match d.track with
  | none => none
  | some tr =>
    match tr.album with
    | some alb =>
      match alb.image with
      | some l => some l
      | none => tr.image
    | none => tr.image

/-- Embedding of _lastfm_cover (src/app.py lines 88-122).  resp is the
outcome of the network request: none when the HTTP call fails or the
body cannot be parsed (the except branch), some when a JSON body was
parsed.  The Bool records whether the network request was performed. -/
def lastfmCoverRemote (apiKey : String) (resp : Option LastfmData) : Option String × Bool :=
  if apiKey = "" then (none, false)
  else
    match resp with
    | none => (none, true)
    | some d =>
      match imagesOf d with
      | some imgs => if imgs.isEmpty then (none, true) else (selectImage imgs, true)
      | none => (none, true)

/-- The cache key of lastfm_cover (src/app.py line 79). -/
def coverKey (artist track : String) : String :=
  strToLower artist ++ "|" ++ strToLower track

/-- Lookup in the _last_cover_ttl dict (src/app.py line 81), defaulting
to 0 for unseen keys. -/
def ttlGet : List (String × Nat) → String → Nat
  | [], _ => 0
  | e :: rest, k => if e.1 = k then e.2 else ttlGet rest k

/-- Assignment into the _last_cover_ttl dict (src/app.py line 85). -/
def ttlSet : List (String × Nat) → String → Nat → List (String × Nat)
  | [], k, v => [(k, v)]
  | e :: rest, k, v => if e.1 = k then (k, v) :: rest else e :: ttlSet rest k v

/-- Lookup in the lru_cache table keyed by the exact (artist, track)
argument pair, most recently used first. -/
def memoFind : List ((String × String) × Option String) → String × String → Option (Option String)
  | [], _ => none
  | e :: rest, k => if e.1 = k then some e.2 else memoFind rest k

/-- Removal of a key from the lru_cache table (used when a hit promotes
an entry to most-recently-used). -/
def memoErase : List ((String × String) × Option String) → String × String → List ((String × String) × Option String)
  | [], _ => []
  | e :: rest, k => if e.1 = k then rest else e :: memoErase rest k

/-- The process-wide cover-cache state: the _last_cover_ttl dict and the
_lastfm_cover_cached lru_cache table (src/app.py lines 71-76). -/
structure CoverState where
  ttl : List (String × Nat)
  memo : List ((String × String) × Option String)
deriving DecidableEq

/-- The TTL check of lastfm_cover (src/app.py lines 80-85): when now is
past the stored expiry (0 for unseen keys) the whole lru_cache table is
cleared and the key's expiry is set one hour ahead. -/
def ttlStep (s : CoverState) (now : Nat) (key : String) : CoverState :=
  if now > ttlGet s.ttl key then CoverState.mk (ttlSet s.ttl key (now + 60 * 60)) [] else s

/-- The lru_cache layer _lastfm_cover_cached (src/app.py lines 71-74):
a hit returns the stored value and promotes the entry to most recently
used; a miss invokes the underlying lookup f once, inserts the result at
the front, and truncates to the 256-entry bound.  The Nat counts
invocations of f in this call. -/
def memoStep (f : String → String → Option String) (s : CoverState)
    (artist track : String) : Option String × CoverState × Nat :=
  match memoFind s.memo (artist, track) with
  | some v => (v, CoverState.mk s.ttl (((artist, track), v) :: memoErase s.memo (artist, track)), 0)
  | none => (f artist track, CoverState.mk s.ttl ((((artist, track), f artist track) :: s.memo).take 256), 1)

/-- Embedding of lastfm_cover (src/app.py lines 78-86): the TTL check
followed by the memoized lookup.  f is the underlying lookup
_lastfm_cover and now is the injected clock in seconds; the result
carries the returned value, the successor state, and how often f was
invoked by this call (0 or 1). -/
def lastfm_cover (f : String → String → Option String) (s : CoverState) (now : Nat)
    (artist track : String) : Option String × CoverState × Nat :=
  memoStep f (ttlStep s now (coverKey artist track)) artist track

/-- The cover fallback policy inside get_now_playing (src/app.py lines
136-144).  ex is the filesystem existence check os.path.exists and
lookup abstracts the lastfm_cover call made at that point. -/
def coverPolicy (ex : String → Bool) (lookup : String → String → Option String)
    (title artist cover : String) : String :=
  if cover = "" ∧ title ≠ "" ∧ artist ≠ "" then
    (lookup artist title).getD ""
  else if cover ≠ "" ∧ strStartsWith cover "file://" then
    if !(ex (strDrop cover 7)) ∧ title ≠ "" ∧ artist ≠ "" then
      (lookup artist title).getD ""
    else cover
  else cover

/-- The tagged result shape of get_now_playing (src/app.py lines 145-156). -/
inductive NowPlaying where
  | stopped
  | playing (title artist album cover source : String) (position length : ℚ)
deriving DecidableEq

/-- Embedding of get_now_playing (src/app.py lines 124-156).  status and
metadata are the per-player poll results, ex the filesystem check, and
lookup the cover resolver as seen by this pass. -/
def get_now_playing (status : String → String) (metadata : String → Option Meta)
    (ex : String → Bool) (lookup : String → String → Option String) : List String → NowPlaying
  | [] => .stopped
  | p :: rest =>
    if strToLower (status p) = "playing" then
      match metadata p with
      | none => get_now_playing status metadata ex lookup rest
      | some m =>
        .playing m.title m.artist m.album
          (coverPolicy ex lookup m.title m.artist m.artUrl)
          (if m.player = "" then p else m.player) m.position m.length
    else get_now_playing status metadata ex lookup rest

/-! ## Specification-side definitions

These follow the wording of the specification and the claims; they are
compared with the source-side definitions above. -/

/-- Written from the claim wording for C5: remote lookup when the cover is
empty and the track is identified, remote lookup when a local-file cover
reference points to a missing path and the track is identified, the
reference kept unchanged in every other case. -/
def coverPolicySpec (ex : String → Bool) (lookup : String → String → Option String)
    (title artist cover : String) : String :=
  if cover = "" ∧ title ≠ "" ∧ artist ≠ "" then
    (lookup artist title).getD ""
  else if strStartsWith cover "file://" ∧ !(ex (strDrop cover 7)) ∧ title ≠ "" ∧ artist ≠ "" then
    (lookup artist title).getD ""
  else cover

/-- Written from the claim wording for C6: the chosen size is the first
preference name for which some entry of that size has a non-empty URL,
and the result is the first such entry's URL; with no such size, the
first entry with any non-empty URL; otherwise absence. -/
def specSelectImage (images : List Image) : Option String :=
  match sizePrefNames.find? (fun sz => images.any (entryOK sz)) with
  | some sz =>
    match images.find? (entryOK sz) with
    | some img => img.text
    | none => none
  | none =>
    match images.find? (fun img => truthyText img.text) with
    | some img => img.text
    | none => none

/-- Written from the claim wording for C6: the full result of the
underlying lookup on a parsed (or failed) response. -/
def specCoverResult (resp : Option LastfmData) : Option String :=
  match resp with
  | none => none
  | some d =>
    match imagesOf d with
    | some imgs => specSelectImage imgs
    | none => none

/-! ## Helper lemmas -/

theorem truthyText_some {o : Option String} (h : truthyText o = true) :
    ∃ s, o = some s ∧ s ≠ "" := by
  cases o with
  | none => exact absurd h (by simp [truthyText])
  | some s =>
    refine ⟨s, rfl, ?_⟩
    simpa [truthyText] using h

theorem trySizes_eq_spec (images : List Image) (szs : List String) :
    trySizes images szs =
      match szs.find? (fun sz => images.any (entryOK sz)) with
      | some sz =>
        match images.find? (entryOK sz) with
        | some img => img.text
        | none => none
      | none => none := by
  induction szs with
  | nil => rfl
  | cons sz rest ih =>
    by_cases h : images.any (entryOK sz) = true
    · have hsome : (images.find? (entryOK sz)).isSome := by
        rw [List.find?_isSome]
        exact List.any_eq_true.mp h
      obtain ⟨img, himg⟩ := Option.isSome_iff_exists.mp hsome
      simp [trySizes, List.find?, h, himg]
    · have hnone : images.find? (entryOK sz) = none := by
        rw [List.find?_eq_none]
        intro x hx hpx
        exact h (List.any_eq_true.mpr ⟨x, hx, hpx⟩)
      have hb : images.any (entryOK sz) = false := by
        simpa using h
      simp [trySizes, List.find?, hb, hnone, ih]

theorem selectImage_eq_spec (images : List Image) :
    selectImage images = specSelectImage images := by
  unfold selectImage specSelectImage
  rw [trySizes_eq_spec]
  cases hfs : sizePrefNames.find? (fun sz => images.any (entryOK sz)) with
  | none => rfl
  | some sz =>
    have hany0 := List.find?_some hfs
    have hany : images.any (entryOK sz) = true := by simpa using hany0
    have hsome : (images.find? (entryOK sz)).isSome := by
      rw [List.find?_isSome]
      exact List.any_eq_true.mp hany
    obtain ⟨img, himg⟩ := Option.isSome_iff_exists.mp hsome
    have hok : entryOK sz img = true := List.find?_some himg
    have htr : truthyText img.text = true := by
      have hsplit : img.size = some sz ∧ truthyText img.text = true := by
        simpa [entryOK] using hok
      exact hsplit.2
    obtain ⟨s, hs, _⟩ := truthyText_some htr
    simp [himg, hs]

/-! ## Claim theorems -/

/-- Claim C5: the resolver's cover policy resolves via the remote lookup
when the cover reference is empty and title and artist are non-empty, or
when a file-scheme reference points to a missing path and title and
artist are non-empty; in every other case the reference is kept
unchanged.  Stated as equality with the policy written from the claim's
own case analysis. -/
theorem cover_policy_matches_spec (ex : String → Bool) (lookup : String → String → Option String)
    (title artist cover : String) :
    coverPolicy ex lookup title artist cover = coverPolicySpec ex lookup title artist cover := by
  unfold coverPolicy coverPolicySpec
  by_cases h1 : cover = "" ∧ title ≠ "" ∧ artist ≠ ""
  · rw [if_pos h1, if_pos h1]
  · rw [if_neg h1, if_neg h1]
    by_cases hc : cover = ""
    · subst hc
      have hsw : strStartsWith "" "file://" = false := by decide
      simp [hsw]
    · by_cases hs : strStartsWith cover "file://"
      · rw [if_pos ⟨hc, hs⟩]
        by_cases h2 : !(ex (strDrop cover 7)) ∧ title ≠ "" ∧ artist ≠ ""
        · rw [if_pos h2, if_pos ⟨hs, h2.1, h2.2.1, h2.2.2⟩]
        · rw [if_neg h2, if_neg ?_]
          intro hcontra
          exact h2 ⟨hcontra.2.1, hcontra.2.2.1, hcontra.2.2.2⟩
      · have : ¬(cover ≠ "" ∧ strStartsWith cover "file://" = true) := by
          intro hcontra
          exact hs hcontra.2
        rw [if_neg this, if_neg ?_]
        intro hcontra
        exact hs hcontra.1

/-- Claim C6: given the outcome of the catalog request, the underlying
lookup with a configured credential selects the album-level image list
if present else the track-level one, prefers the first size among
extralarge, mega, large, medium that has an entry with a non-empty URL,
falls back to the first entry with any non-empty URL, and yields absence
when no image qualifies, no list exists, or the request failed.  Stated
as equality with the selection written from the claim's wording. -/
theorem lastfm_remote_selection (apiKey : String) (h : apiKey ≠ "") (resp : Option LastfmData) :
    (lastfmCoverRemote apiKey resp).1 = specCoverResult resp := by
  unfold lastfmCoverRemote specCoverResult
  rw [if_neg h]
  cases resp with
  | none => rfl
  | some d =>
    dsimp only
    cases hI : imagesOf d with
    | none => rfl
    | some imgs =>
      by_cases he : imgs.isEmpty
      · have hnil : imgs = [] := by
          cases imgs with
          | nil => rfl
          | cons a l => exact absurd he (by simp)
        subst hnil
        decide
      · simp [he, selectImage_eq_spec]

/-- Witness for C6 at the spec's own scenario: a non-empty credential and
an album image list containing a small and a large entry yield the large
entry's URL, beating list order. -/
theorem lastfm_remote_selection_witness :
    ("k" : String) ≠ "" ∧
    (lastfmCoverRemote "k" (some ⟨some ⟨some ⟨some [⟨some "small", some "s.jpg"⟩,
      ⟨some "large", some "l.jpg"⟩]⟩, none⟩⟩)).1 = some "l.jpg" := by
  have hk : ("k" : String) ≠ "" := by decide
  refine ⟨hk, ?_⟩
  rw [lastfm_remote_selection "k" hk (some ⟨some ⟨some ⟨some [⟨some "small", some "s.jpg"⟩,
    ⟨some "large", some "l.jpg"⟩]⟩, none⟩⟩)]
  decide

/-- Claim C8: with no API credential configured the underlying lookup
returns absence and performs no network request, for every artist/track
and every would-be network outcome. -/
theorem lastfm_remote_no_credential (apiKey : String) (resp : Option LastfmData)
    (h : apiKey = "") : lastfmCoverRemote apiKey resp = (none, false) := by
  subst h
  rfl

/-- Witness for C8 at a concrete parsed response. -/
theorem lastfm_remote_no_credential_witness :
    lastfmCoverRemote "" (some ⟨some ⟨none, some [⟨some "large", some "l.jpg"⟩]⟩⟩) = (none, false) :=
  lastfm_remote_no_credential "" (some ⟨some ⟨none, some [⟨some "large", some "l.jpg"⟩]⟩⟩) rfl

theorem getD_pad_take (l : List String) (i : Nat) (h : i < 5) :
    ((l ++ ["", "", "", "", ""]).take 5).getD i "" = l.getD i "" := by
  rcases l with _ | ⟨a, _ | ⟨b, _ | ⟨c, _ | ⟨d, _ | ⟨e, rest⟩⟩⟩⟩⟩ <;>
    interval_cases i <;> rfl

/-- Claim C7: player_metadata returns the absent result exactly when the
raw output is empty or has no pipe delimiter, and otherwise builds the
five trimmed fields from the split padded with empty strings, converting
the fifth from microseconds to seconds with non-numeric input defaulting
to 0.  Totality (never raises) is carried by the return type. -/
theorem player_metadata_parse (player raw posRaw : String) :
    ((raw = "" ∨ strContains raw '|' = false) → player_metadata player raw posRaw = none) ∧
    (strContains raw '|' = true →
      player_metadata player raw posRaw = some {
        title := strTrim ((strSplitChar '|' raw).getD 0 "")
        artist := strTrim ((strSplitChar '|' raw).getD 1 "")
        album := strTrim ((strSplitChar '|' raw).getD 2 "")
        artUrl := strTrim ((strSplitChar '|' raw).getD 3 "")
        player := player
        position := parsePosition posRaw
        length := lengthToSeconds ((strSplitChar '|' raw).getD 4 "") }) := by
  constructor
  · intro h
    unfold player_metadata
    rw [if_pos h]
  · intro h
    have hne : ¬(raw = "" ∨ strContains raw '|' = false) := by
      rintro (h1 | h2)
      · subst h1
        exact absurd h (by decide)
      · rw [h] at h2
        exact Bool.noConfusion h2
    unfold player_metadata
    rw [if_neg hne]
    rw [getD_pad_take _ 0 (by norm_num), getD_pad_take _ 1 (by norm_num),
      getD_pad_take _ 2 (by norm_num), getD_pad_take _ 3 (by norm_num),
      getD_pad_take _ 4 (by norm_num)]

/-- Witness for C7 on a two-field raw output: the three missing trailing
fields default to empty strings. -/
theorem player_metadata_parse_witness :
    player_metadata "p" "A |B" "" = some ⟨"A", "B", "", "", "p", 0, 0⟩ := by
  rw [(player_metadata_parse "p" "A |B" "").2 (by decide)]
  decide

/-- Counterexample to C9: a playerctl position output of -1 and a
metadata length field of -2000000 microseconds produce a negative
position and a negative length in the parsed metadata. -/
theorem player_metadata_negative_values :
    ((player_metadata "p" "t|a|al|c|-2000000" "-1").map Meta.position).getD 0 < 0 ∧
    ((player_metadata "p" "t|a|al|c|-2000000" "-1").map Meta.length).getD 0 < 0 := by
  constructor
  · decide
  · show lengthToSeconds "-2000000" < 0
    have h : pyInt? "-2000000" = some (-2000000) := by decide
    have h2 : lengthToSeconds "-2000000" = ((-2000000 : Int) : ℚ) / 1000000 := by
      unfold lengthToSeconds
      rw [if_neg (by decide : ¬("-2000000" : String) = ""), h]
    rw [h2]
    norm_num

theorem parsePosition_nonneg (posRaw : String)
    (hp : ∀ q, pyFloat? posRaw = some q → 0 ≤ q) : 0 ≤ parsePosition posRaw := by
  unfold parsePosition
  by_cases hpe : posRaw = ""
  · rw [if_pos hpe]
  · rw [if_neg hpe]
    cases hq : pyFloat? posRaw with
    | none => exact le_refl 0
    | some q => exact hp q hq

theorem lengthToSeconds_nonneg (s : String)
    (hl : ∀ z, pyInt? s = some z → 0 ≤ z) : 0 ≤ lengthToSeconds s := by
  unfold lengthToSeconds
  by_cases hse : s = ""
  · rw [if_pos hse]
  · rw [if_neg hse]
    cases hz : pyInt? s with
    | none => exact le_refl 0
    | some z =>
      have hz0 : (0 : ℚ) ≤ (z : ℚ) := by exact_mod_cast hl z hz
      exact div_nonneg hz0 (by norm_num)

/-- Claim C9 as amended: the parsed position and length are non-negative
provided the raw position output does not parse to a negative number and
the raw length field does not parse to a negative integer; parse
failures and empty fields default to 0. -/
theorem player_metadata_nonneg (player raw posRaw : String)
    (hp : ∀ q, pyFloat? posRaw = some q → 0 ≤ q)
    (hl : ∀ z, pyInt? ((((strSplitChar '|' raw) ++ ["", "", "", "", ""]).take 5).getD 4 "") = some z → 0 ≤ z)
    (m : Meta) (hm : player_metadata player raw posRaw = some m) :
    0 ≤ m.position ∧ 0 ≤ m.length := by
  unfold player_metadata at hm
  by_cases hg : raw = "" ∨ strContains raw '|' = false
  · rw [if_pos hg] at hm
    exact Option.noConfusion hm
  · rw [if_neg hg] at hm
    have hm2 := Option.some.inj hm
    have hpos : m.position = parsePosition posRaw := by rw [← hm2]
    have hlen : m.length =
        lengthToSeconds ((((strSplitChar '|' raw) ++ ["", "", "", "", ""]).take 5).getD 4 "") := by
      rw [← hm2]
    rw [hpos, hlen]
    exact ⟨parsePosition_nonneg posRaw hp, lengthToSeconds_nonneg _ hl⟩

/-- Witness for C9 as amended: a non-negative position output and an
empty length field yield non-negative parsed values. -/
theorem player_metadata_nonneg_witness :
    0 ≤ (Meta.mk "t" "a" "al" "c" "p" 2 0).position ∧
    0 ≤ (Meta.mk "t" "a" "al" "c" "p" 2 0).length := by
  refine player_metadata_nonneg "p" "t|a|al|c|" "2" ?_ ?_ (Meta.mk "t" "a" "al" "c" "p" 2 0) (by decide)
  · intro q hq
    rw [(by decide : pyFloat? "2" = some 2)] at hq
    cases hq
    norm_num
  · intro z hz
    rw [(by decide : pyInt? ((((strSplitChar '|' "t|a|al|c|") ++ ["", "", "", "", ""]).take 5).getD 4 "") = none)] at hz
    exact Option.noConfusion hz

/-! ## Cover-cache lemmas -/

theorem ttlGet_ttlSet_self (m : List (String × Nat)) (k : String) (v : Nat) :
    ttlGet (ttlSet m k v) k = v := by
  induction m with
  | nil => simp [ttlSet, ttlGet]
  | cons e rest ih =>
    by_cases he : e.1 = k
    · simp [ttlSet, ttlGet, he]
    · simp [ttlSet, ttlGet, he, ih]

theorem memoFind_cons_self (k : String × String) (v : Option String)
    (m : List ((String × String) × Option String)) :
    memoFind ((k, v) :: m) k = some v := by
  simp [memoFind]

theorem memoFind_take_cons (k : String × String) (v : Option String)
    (m : List ((String × String) × Option String)) :
    memoFind (((k, v) :: m).take 256) k = some v := by
  show memoFind (((k, v) :: m).take (255 + 1)) k = some v
  rw [List.take_succ_cons]
  simp [memoFind]

theorem memoFind_cons_ne (k k' : String × String) (v : Option String)
    (m : List ((String × String) × Option String)) (h : k' ≠ k) :
    memoFind ((k', v) :: m) k = memoFind m k := by
  simp [memoFind, h]

theorem memoFind_erase_none (m : List ((String × String) × Option String))
    (k k' : String × String) (h : memoFind m k = none) :
    memoFind (memoErase m k') k = none := by
  induction m with
  | nil => simp [memoErase, memoFind]
  | cons e rest ih =>
    have he : ¬(e.1 = k) := by
      intro hek
      simp [memoFind, hek] at h
    have hrest : memoFind rest k = none := by
      simpa [memoFind, he] using h
    by_cases he' : e.1 = k'
    · simpa [memoErase, he'] using hrest
    · simp [memoErase, he', memoFind, he, ih hrest]

theorem memoFind_take_none (k : String × String) :
    ∀ (m : List ((String × String) × Option String)) (n : Nat),
      memoFind m k = none → memoFind (m.take n) k = none := by
  intro m
  induction m with
  | nil =>
    intro n h
    cases n <;> simp [memoFind]
  | cons e rest ih =>
    intro n h
    have he : ¬(e.1 = k) := by
      intro hek
      simp [memoFind, hek] at h
    have hrest : memoFind rest k = none := by
      simpa [memoFind, he] using h
    cases n with
    | zero => simp [memoFind]
    | succ n2 => simp [List.take_succ_cons, memoFind, he, ih n2 hrest]

theorem memoStep_miss (f : String → String → Option String) (s : CoverState)
    (a t : String) (h : memoFind s.memo (a, t) = none) :
    memoStep f s a t = (f a t, CoverState.mk s.ttl ((((a, t), f a t) :: s.memo).take 256), 1) := by
  unfold memoStep
  rw [h]

theorem memoStep_hit (f : String → String → Option String) (s : CoverState)
    (a t : String) (v : Option String) (h : memoFind s.memo (a, t) = some v) :
    memoStep f s a t = (v, CoverState.mk s.ttl (((a, t), v) :: memoErase s.memo (a, t)), 0) := by
  unfold memoStep
  rw [h]

theorem memoStep_find_self (f : String → String → Option String) (s : CoverState)
    (a t : String) :
    memoFind (memoStep f s a t).2.1.memo (a, t) = some (memoStep f s a t).1 := by
  cases h : memoFind s.memo (a, t) with
  | some v => rw [memoStep_hit f s a t v h]; exact memoFind_cons_self _ _ _
  | none => rw [memoStep_miss f s a t h]; exact memoFind_take_cons _ _ _

theorem memoStep_calls_le_one (f : String → String → Option String) (s : CoverState)
    (a t : String) : (memoStep f s a t).2.2 ≤ 1 := by
  cases h : memoFind s.memo (a, t) with
  | some v => rw [memoStep_hit f s a t v h]; exact Nat.zero_le 1
  | none => rw [memoStep_miss f s a t h]

theorem memoStep_ttl (f : String → String → Option String) (s : CoverState)
    (a t : String) : (memoStep f s a t).2.1.ttl = s.ttl := by
  cases h : memoFind s.memo (a, t) with
  | some v => rw [memoStep_hit f s a t v h]
  | none => rw [memoStep_miss f s a t h]

theorem ttlStep_not_expired (s : CoverState) (now : Nat) (key : String)
    (h : ¬ now > ttlGet s.ttl key) : ttlStep s now key = s := by
  unfold ttlStep
  rw [if_neg h]

theorem ttlStep_expired {s : CoverState} {now : Nat} {key : String}
    (h : now > ttlGet s.ttl key) :
    ttlStep s now key = CoverState.mk (ttlSet s.ttl key (now + 60 * 60)) [] := by
  unfold ttlStep
  rw [if_pos h]

/-- The oracle used by concrete cache scenarios: a lookup that always
reports no cover. -/
def probeLookup : String → String → Option String :=
  fun _ _ => none

/-- Counterexample to C3: starting from the empty cache, a call for
("A", "T") at time 1 creates the TTL entry for key "a|t"; at time 2 that
key's expiry has not passed, yet the call for ("a", "t") still invokes
the underlying lookup once, because the memoizing layer is keyed on the
exact argument pair. -/
theorem lastfm_cover_unexpired_lookup_cex :
    ¬ 2 > ttlGet (lastfm_cover probeLookup (CoverState.mk [] []) 1 "A" "T").2.1.ttl (coverKey "a" "t") ∧
    (lastfm_cover probeLookup (lastfm_cover probeLookup (CoverState.mk [] []) 1 "A" "T").2.1 2 "a" "t").2.2 = 1 := by
  constructor <;> decide

/-- Claim C3 as amended: when now is past the key's stored expiry (0 for
a key never seen), the whole memo table is cleared — afterwards it holds
exactly the entry just computed — the key's expiry becomes now + 3600,
and the underlying lookup runs once; when the expiry has not passed, the
TTL map is unchanged and the memoizing layer returns the stored value
with no underlying call exactly when the exact (artist, track) pair is
memoized, invoking the lookup once otherwise. -/
theorem lastfm_cover_ttl_policy (f : String → String → Option String)
    (s : CoverState) (now : Nat) (a t : String) :
    (now > ttlGet s.ttl (coverKey a t) →
      (lastfm_cover f s now a t).2.2 = 1 ∧
      (lastfm_cover f s now a t).1 = f a t ∧
      (lastfm_cover f s now a t).2.1.memo = [((a, t), f a t)] ∧
      ttlGet (lastfm_cover f s now a t).2.1.ttl (coverKey a t) = now + 60 * 60) ∧
    (¬ now > ttlGet s.ttl (coverKey a t) →
      (lastfm_cover f s now a t).2.1.ttl = s.ttl ∧
      (∀ v, memoFind s.memo (a, t) = some v →
        (lastfm_cover f s now a t).1 = v ∧ (lastfm_cover f s now a t).2.2 = 0) ∧
      (memoFind s.memo (a, t) = none →
        (lastfm_cover f s now a t).1 = f a t ∧ (lastfm_cover f s now a t).2.2 = 1)) := by
  constructor
  · intro h
    have e1 : lastfm_cover f s now a t =
        (f a t, CoverState.mk (ttlSet s.ttl (coverKey a t) (now + 60 * 60))
          ((((a, t), f a t) :: ([] : List ((String × String) × Option String))).take 256), 1) := by
      unfold lastfm_cover
      rw [ttlStep_expired h]
      exact memoStep_miss f _ a t rfl
    rw [e1]
    refine ⟨rfl, rfl, rfl, ?_⟩
    exact ttlGet_ttlSet_self _ _ _
  · intro h
    unfold lastfm_cover
    rw [ttlStep_not_expired s now _ h]
    refine ⟨memoStep_ttl f s a t, ?_, ?_⟩
    · intro v hv
      rw [memoStep_hit f s a t v hv]
      exact ⟨rfl, rfl⟩
    · intro hv
      rw [memoStep_miss f s a t hv]
      exact ⟨rfl, rfl⟩

/-- Witness for C3 as amended, exercising the expired branch on a fresh
key at time 5. -/
theorem lastfm_cover_ttl_policy_witness :
    (lastfm_cover probeLookup (CoverState.mk [] []) 5 "A" "T").2.2 = 1 ∧
    (lastfm_cover probeLookup (CoverState.mk [] []) 5 "A" "T").1 = probeLookup "A" "T" ∧
    (lastfm_cover probeLookup (CoverState.mk [] []) 5 "A" "T").2.1.memo = [(("A", "T"), probeLookup "A" "T")] ∧
    ttlGet (lastfm_cover probeLookup (CoverState.mk [] []) 5 "A" "T").2.1.ttl (coverKey "A" "T") = 5 + 60 * 60 :=
  (lastfm_cover_ttl_policy probeLookup (CoverState.mk [] []) 5 "A" "T").1 (by decide)

/-- Claim C4: a second call for the same (artist, track) pair made
immediately afterwards, at a time at which the key's stored expiry has
not passed, returns the same value, and the two calls together invoke
the underlying lookup at most once. -/
theorem lastfm_cover_idempotent (f : String → String → Option String) (s : CoverState)
    (t1 t2 : Nat) (a t : String)
    (h : ¬ t2 > ttlGet (lastfm_cover f s t1 a t).2.1.ttl (coverKey a t)) :
    (lastfm_cover f (lastfm_cover f s t1 a t).2.1 t2 a t).1 = (lastfm_cover f s t1 a t).1 ∧
    (lastfm_cover f s t1 a t).2.2 + (lastfm_cover f (lastfm_cover f s t1 a t).2.1 t2 a t).2.2 ≤ 1 := by
  have hfind : memoFind (lastfm_cover f s t1 a t).2.1.memo (a, t) =
      some (lastfm_cover f s t1 a t).1 :=
    memoStep_find_self f (ttlStep s t1 (coverKey a t)) a t
  have h2 : lastfm_cover f (lastfm_cover f s t1 a t).2.1 t2 a t =
      ((lastfm_cover f s t1 a t).1,
        CoverState.mk (lastfm_cover f s t1 a t).2.1.ttl
          (((a, t), (lastfm_cover f s t1 a t).1) ::
            memoErase (lastfm_cover f s t1 a t).2.1.memo (a, t)), 0) := by
    show memoStep f (ttlStep (lastfm_cover f s t1 a t).2.1 t2 (coverKey a t)) a t = _
    rw [ttlStep_not_expired _ _ _ h]
    exact memoStep_hit f _ a t _ hfind
  rw [h2]
  refine ⟨rfl, ?_⟩
  have hle : (lastfm_cover f s t1 a t).2.2 ≤ 1 :=
    memoStep_calls_le_one f (ttlStep s t1 (coverKey a t)) a t
  simpa using hle

/-- Witness for C4: two consecutive calls for ("A", "T") from the empty
cache at times 1 and 2 return the same value and perform at most one
underlying lookup in total. -/
theorem lastfm_cover_idempotent_witness :
    (lastfm_cover probeLookup (lastfm_cover probeLookup (CoverState.mk [] []) 1 "A" "T").2.1 2 "A" "T").1
      = (lastfm_cover probeLookup (CoverState.mk [] []) 1 "A" "T").1 ∧
    (lastfm_cover probeLookup (CoverState.mk [] []) 1 "A" "T").2.2
      + (lastfm_cover probeLookup (lastfm_cover probeLookup (CoverState.mk [] []) 1 "A" "T").2.1 2 "A" "T").2.2 ≤ 1 :=
  lastfm_cover_idempotent probeLookup (CoverState.mk [] []) 1 2 "A" "T" (by decide)

theorem lastfm_cover_find_other_none (f : String → String → Option String) (s : CoverState)
    (now : Nat) (x y u v : String) (hne : (u, v) ≠ (x, y))
    (hmiss : memoFind s.memo (u, v) = none) :
    memoFind (lastfm_cover f s now x y).2.1.memo (u, v) = none := by
  have hm1 : memoFind (ttlStep s now (coverKey x y)).memo (u, v) = none := by
    unfold ttlStep
    by_cases h : now > ttlGet s.ttl (coverKey x y)
    · rw [if_pos h]
      rfl
    · rw [if_neg h]
      exact hmiss
  show memoFind (memoStep f (ttlStep s now (coverKey x y)) x y).2.1.memo (u, v) = none
  cases hf : memoFind (ttlStep s now (coverKey x y)).memo (x, y) with
  | some w =>
    rw [memoStep_hit f _ x y w hf]
    rw [memoFind_cons_ne _ _ _ _ (Ne.symm hne)]
    exact memoFind_erase_none _ _ _ hm1
  | none =>
    rw [memoStep_miss f _ x y hf]
    apply memoFind_take_none
    rw [memoFind_cons_ne _ _ _ _ (Ne.symm hne)]
    exact hm1

/-- Claim C10: calls whose artist and track differ only in letter case
share one TTL key (the key is lowercased), yet the memoizing layer is
keyed on the exact pair, so a differently-cased pair not yet memoized
triggers its own underlying lookup even though the shared key's expiry
has not passed. -/
theorem lastfm_cover_case_sensitivity (f : String → String → Option String) (s : CoverState)
    (t1 t2 : Nat) (x y u v : String)
    (hA : strToLower x = strToLower u) (hT : strToLower y = strToLower v)
    (hne : (u, v) ≠ (x, y)) (hmiss : memoFind s.memo (u, v) = none)
    (h2 : ¬ t2 > ttlGet (lastfm_cover f s t1 x y).2.1.ttl (coverKey u v)) :
    coverKey x y = coverKey u v ∧
    (lastfm_cover f (lastfm_cover f s t1 x y).2.1 t2 u v).2.2 = 1 := by
  constructor
  · unfold coverKey
    rw [hA, hT]
  · have hm : memoFind (lastfm_cover f s t1 x y).2.1.memo (u, v) = none :=
      lastfm_cover_find_other_none f s t1 x y u v hne hmiss
    show (memoStep f (ttlStep (lastfm_cover f s t1 x y).2.1 t2 (coverKey u v)) u v).2.2 = 1
    rw [ttlStep_not_expired _ _ _ h2]
    rw [memoStep_miss f _ u v hm]

/-- Witness for C10: ("A", "T") then ("a", "t") from the empty cache,
the second at an unexpired time, share the TTL key "a|t" and still
trigger a second underlying lookup. -/
theorem lastfm_cover_case_sensitivity_witness :
    coverKey "A" "T" = coverKey "a" "t" ∧
    (lastfm_cover probeLookup (lastfm_cover probeLookup (CoverState.mk [] []) 1 "A" "T").2.1 2 "a" "t").2.2 = 1 :=
  lastfm_cover_case_sensitivity probeLookup (CoverState.mk [] []) 1 2 "A" "T" "a" "t"
    (by decide) (by decide) (by decide) (by decide) (by decide)

/-! ## Now-playing resolution -/

/-- The playing-shape result built from the first qualifying player
(src/app.py lines 145-154); absent metadata means no result, kept only
to state the selection theorem. -/
def playingFrom (ex : String → Bool) (lookup : String → String → Option String)
    (p : String) : Option Meta → NowPlaying
  | none => .stopped
  | some m =>
    .playing m.title m.artist m.album
      (coverPolicy ex lookup m.title m.artist m.artUrl)
      (if m.player = "" then p else m.player) m.position m.length

/-- Written from the claim wording for C1: the selected player is the
first, in order, whose status is exactly "playing" case-insensitively
and whose metadata is non-empty. -/
def selectedPlayer (status : String → String) (metadata : String → Option Meta)
    (players : List String) : Option String :=
  players.find? (fun p => strToLower (status p) == "playing" && (metadata p).isSome)

theorem selectedPlayer_cons (status : String → String) (metadata : String → Option Meta)
    (p : String) (rest : List String) :
    selectedPlayer status metadata (p :: rest) =
      if strToLower (status p) = "playing" ∧ (metadata p).isSome then some p
      else selectedPlayer status metadata rest := by
  unfold selectedPlayer
  rw [List.find?_cons]
  by_cases h1 : strToLower (status p) = "playing"
  · by_cases h2 : (metadata p).isSome
    · simp [h1, h2]
    · simp [h1, h2]
  · have hb : (strToLower (status p) == "playing") = false := by
      rw [beq_eq_false_iff_ne]
      exact h1
    simp [h1, hb]

/-- Claim C1: get_now_playing emits exactly one of the two tagged shapes:
the stopped shape when no listed player has a playing status together
with non-empty metadata (in particular when the list is empty), else the
playing shape built from the first such player, skipping playing players
whose metadata is empty. -/
theorem get_now_playing_selection (status : String → String) (metadata : String → Option Meta)
    (ex : String → Bool) (lookup : String → String → Option String) (players : List String) :
    get_now_playing status metadata ex lookup players =
      match selectedPlayer status metadata players with
      | none => NowPlaying.stopped
      | some p => playingFrom ex lookup p (metadata p) := by
  induction players with
  | nil => rfl
  | cons p rest ih =>
    rw [selectedPlayer_cons]
    simp only [get_now_playing]
    by_cases hst : strToLower (status p) = "playing"
    · rw [if_pos hst]
      cases hmd : metadata p with
      | none =>
        rw [if_neg (by simp)]
        exact ih
      | some m =>
        rw [if_pos ⟨hst, rfl⟩]
        dsimp only
        rw [hmd]
        rfl
    · rw [if_neg hst]
      rw [if_neg (fun hc => hst hc.1)]
      exact ih

/-! ## Player ordering -/

theorem count_flatMap_filter (players : List String) (x : String) (prefs : List String) :
    ((prefs.flatMap (fun n => players.filter (fun p => matchesName n p))).count x) =
      (prefs.countP (fun n => matchesName n x)) * players.count x := by
  induction prefs with
  | nil => simp
  | cons n ps ih =>
    rw [List.flatMap_cons, List.count_append, ih, List.countP_cons]
    by_cases hn : matchesName n x = true
    · rw [List.count_filter hn, if_pos hn]
      ring
    · have h0 : (players.filter (fun p => matchesName n p)).count x = 0 := by
        rw [List.count_eq_zero]
        intro hmem
        exact hn (List.mem_filter.mp hmem).2
      rw [h0, if_neg hn]
      ring

theorem mem_ordered_iff (prefs players : List String) (x : String) :
    (x ∈ prefs.flatMap (fun n => players.filter (fun p => matchesName n p))) ↔
      (x ∈ players ∧ ∃ n ∈ prefs, matchesName n x = true) := by
  simp only [List.mem_flatMap, List.mem_filter]
  constructor
  · rintro ⟨n, hn, hx, hm⟩
    exact ⟨hx, n, hn, hm⟩
  · rintro ⟨hx, n, hn, hm⟩
    exact ⟨n, hn, hx, hm⟩

theorem contains_eq_true_of_mem {l : List String} {x : String} (h : x ∈ l) :
    l.contains x = true := by
  simp only [List.contains]
  exact List.elem_iff.mpr h

theorem mem_of_contains_eq_true {l : List String} {x : String} (h : l.contains x = true) :
    x ∈ l := by
  simp only [List.contains] at h
  exact List.elem_iff.mp h

theorem count_orderedPlayers (prefs players : List String) (x : String)
    (Hx : x ∈ players → prefs.countP (fun n => matchesName n x) ≤ 1) :
    (orderedPlayers prefs players).count x = players.count x := by
  unfold orderedPlayers
  rw [List.count_append, count_flatMap_filter]
  by_cases hx : x ∈ players
  · by_cases hmatch : ∃ n ∈ prefs, matchesName n x = true
    · have h1 : prefs.countP (fun n => matchesName n x) = 1 := by
        have hpos : 0 < prefs.countP (fun n => matchesName n x) :=
          List.countP_pos_iff.mpr hmatch
        have hle := Hx hx
        omega
      have hmem : x ∈ prefs.flatMap (fun n => players.filter (fun p => matchesName n p)) :=
        (mem_ordered_iff prefs players x).mpr ⟨hx, hmatch⟩
      have h0 : (players.filter (fun p =>
          !((prefs.flatMap (fun n => players.filter (fun q => matchesName n q))).contains p))).count x = 0 := by
        rw [List.count_eq_zero]
        intro hinf
        have hb := (List.mem_filter.mp hinf).2
        rw [Bool.not_eq_true'] at hb
        rw [contains_eq_true_of_mem hmem] at hb
        exact Bool.noConfusion hb
      rw [h1, h0, one_mul]
      rfl
    · have h1 : prefs.countP (fun n => matchesName n x) = 0 :=
        List.countP_eq_zero.mpr (fun n hn hcon => hmatch ⟨n, hn, hcon⟩)
      have hnotmem : ¬ x ∈ prefs.flatMap (fun n => players.filter (fun p => matchesName n p)) := by
        intro hmem
        exact hmatch ((mem_ordered_iff prefs players x).mp hmem).2
      have hpred : (fun p =>
          !((prefs.flatMap (fun n => players.filter (fun q => matchesName n q))).contains p)) x = true := by
        have hcf : (prefs.flatMap (fun n => players.filter (fun q => matchesName n q))).contains x = false := by
          cases hel : (prefs.flatMap (fun n => players.filter (fun q => matchesName n q))).contains x
          · rfl
          · exact absurd (mem_of_contains_eq_true hel) hnotmem
        show (!((prefs.flatMap (fun n => players.filter (fun q => matchesName n q))).contains x)) = true
        rw [hcf]
        rfl
      have hcf2 := @List.count_filter String _ _
        (fun p => !((prefs.flatMap (fun n => players.filter (fun q => matchesName n q))).contains p))
        x players hpred
      rw [h1, hcf2]
      ring
  · have hz : players.count x = 0 := List.count_eq_zero.mpr hx
    have h0 : (players.filter (fun p =>
        !((prefs.flatMap (fun n => players.filter (fun q => matchesName n q))).contains p))).count x = 0 := by
      rw [List.count_eq_zero]
      intro hinf
      exact hx (List.mem_filter.mp hinf).1
    rw [hz, h0]
    ring

theorem pairwise_flatMap_rank (players : List String) :
    ∀ prefs : List String,
      (∀ p ∈ players, prefs.countP (fun n => matchesName n p) ≤ 1) →
      (prefs.flatMap (fun n => players.filter (fun p => matchesName n p))).Pairwise
        (fun a b => prefs.findIdx (fun n => matchesName n a) ≤
          prefs.findIdx (fun n => matchesName n b)) := by
  intro prefs
  induction prefs with
  | nil =>
    intro H
    simp
  | cons n ps ih =>
    intro H
    rw [List.flatMap_cons, List.pairwise_append]
    have Hps : ∀ p ∈ players, ps.countP (fun m => matchesName m p) ≤ 1 := by
      intro p hp
      have hcount := H p hp
      rw [List.countP_cons] at hcount
      omega
    refine ⟨?_, ?_, ?_⟩
    · apply List.pairwise_of_forall_mem_list
      intro a ha b hb
      have hm : matchesName n a = true := (List.mem_filter.mp ha).2
      rw [List.findIdx_cons, hm]
      exact Nat.zero_le _
    · refine (ih Hps).imp_of_mem ?_
      intro a b ha hb hab
      have ha2 := (mem_ordered_iff ps players a).mp ha
      have hb2 := (mem_ordered_iff ps players b).mp hb
      have hna : matchesName n a = false := by
        rw [← Bool.not_eq_true]
        intro hcon
        have h1 : 0 < ps.countP (fun m => matchesName m a) :=
          List.countP_pos_iff.mpr ha2.2
        have hcount := H a ha2.1
        rw [List.countP_cons, if_pos hcon] at hcount
        omega
      have hnb : matchesName n b = false := by
        rw [← Bool.not_eq_true]
        intro hcon
        have h1 : 0 < ps.countP (fun m => matchesName m b) :=
          List.countP_pos_iff.mpr hb2.2
        have hcount := H b hb2.1
        rw [List.countP_cons, if_pos hcon] at hcount
        omega
      rw [List.findIdx_cons, List.findIdx_cons, hna, hnb]
      exact Nat.succ_le_succ hab
    · intro a ha b hb
      have hm : matchesName n a = true := (List.mem_filter.mp ha).2
      rw [List.findIdx_cons, hm]
      exact Nat.zero_le _

theorem flatMap_filter_name (players : List String) :
    ∀ (prefs : List String) (name : String),
      (∀ p ∈ players, prefs.countP (fun n => matchesName n p) ≤ 1) →
      name ∈ prefs →
      (prefs.flatMap (fun n => players.filter (fun p => matchesName n p))).filter
        (fun p => matchesName name p) = players.filter (fun p => matchesName name p) := by
  intro prefs
  induction prefs with
  | nil =>
    intro name H h
    exact absurd h (List.not_mem_nil name)
  | cons n ps ih =>
    intro name H hmem
    have Hps : ∀ p ∈ players, ps.countP (fun m => matchesName m p) ≤ 1 := by
      intro p hp
      have hcount := H p hp
      rw [List.countP_cons] at hcount
      omega
    rw [List.flatMap_cons, List.filter_append]
    by_cases hn : n = name
    · subst hn
      have hhead : (players.filter (fun p => matchesName n p)).filter
          (fun p => matchesName n p) = players.filter (fun p => matchesName n p) := by
        rw [List.filter_filter]
        apply List.filter_congr
        intro x hx
        exact Bool.and_self _
      have htail : (ps.flatMap (fun m => players.filter (fun p => matchesName m p))).filter
          (fun p => matchesName n p) = [] := by
        rw [List.filter_eq_nil_iff]
        intro a ha hcon
        have ha2 := (mem_ordered_iff ps players a).mp ha
        have h1 : 0 < ps.countP (fun m => matchesName m a) :=
          List.countP_pos_iff.mpr ha2.2
        have hcount := H a ha2.1
        rw [List.countP_cons, if_pos hcon] at hcount
        omega
      rw [hhead, htail, List.append_nil]
    · have hname : name ∈ ps := by
        cases List.mem_cons.mp hmem with
        | inl h => exact absurd h.symm hn
        | inr h => exact h
      have hhead : (players.filter (fun p => matchesName n p)).filter
          (fun p => matchesName name p) = [] := by
        rw [List.filter_eq_nil_iff]
        intro a ha hcon
        have haf := List.mem_filter.mp ha
        have h1 : 0 < ps.countP (fun m => matchesName m a) :=
          List.countP_pos_iff.mpr ⟨name, hname, hcon⟩
        have hcount := H a haf.1
        rw [List.countP_cons, if_pos haf.2] at hcount
        omega
      rw [hhead, List.nil_append, ih name Hps hname]

theorem rest_filter_name (prefs players : List String) (name : String) (hname : name ∈ prefs) :
    (players.filter (fun p =>
      !((prefs.flatMap (fun n => players.filter (fun q => matchesName n q))).contains p))).filter
        (fun p => matchesName name p) = [] := by
  rw [List.filter_eq_nil_iff]
  intro a ha hcon
  have haf := List.mem_filter.mp ha
  have hb := haf.2
  rw [Bool.not_eq_true'] at hb
  have hmem : a ∈ prefs.flatMap (fun n => players.filter (fun q => matchesName n q)) :=
    (mem_ordered_iff prefs players a).mpr ⟨haf.1, name, hname, hcon⟩
  rw [contains_eq_true_of_mem hmem] at hb
  exact Bool.noConfusion hb

theorem rest_rank_eq_length (prefs players : List String) (b : String)
    (hb : b ∈ players.filter (fun p =>
      !((prefs.flatMap (fun n => players.filter (fun q => matchesName n q))).contains p))) :
    prefs.findIdx (fun n => matchesName n b) = prefs.length := by
  have hbf := List.mem_filter.mp hb
  have hnb : ¬ b ∈ prefs.flatMap (fun n => players.filter (fun q => matchesName n q)) := by
    intro hmem
    have hcontrb := hbf.2
    rw [Bool.not_eq_true'] at hcontrb
    rw [contains_eq_true_of_mem hmem] at hcontrb
    exact Bool.noConfusion hcontrb
  rw [List.findIdx_eq_length]
  intro n hn
  rw [← Bool.not_eq_true]
  intro hcon
  exact hnb ((mem_ordered_iff prefs players b).mpr ⟨hbf.1, n, hn, hcon⟩)

theorem unmatched_filter (prefs players : List String) :
    (orderedPlayers prefs players).filter (fun p => !(prefs.any (fun n => matchesName n p))) =
      players.filter (fun p => !(prefs.any (fun n => matchesName n p))) := by
  unfold orderedPlayers
  rw [List.filter_append]
  have h1 : (prefs.flatMap (fun n => players.filter (fun q => matchesName n q))).filter
      (fun p => !(prefs.any (fun n => matchesName n p))) = [] := by
    rw [List.filter_eq_nil_iff]
    intro a ha hcon
    have ha2 := (mem_ordered_iff prefs players a).mp ha
    rw [Bool.not_eq_true'] at hcon
    rw [List.any_eq_true.mpr ha2.2] at hcon
    exact Bool.noConfusion hcon
  rw [h1, List.nil_append, List.filter_filter]
  apply List.filter_congr
  intro x hx
  cases hany : prefs.any (fun n => matchesName n x) with
  | false =>
    have hnot : ¬ x ∈ prefs.flatMap (fun n => players.filter (fun q => matchesName n q)) := by
      intro hmem
      have hex := ((mem_ordered_iff prefs players x).mp hmem).2
      rw [List.any_eq_true.mpr hex] at hany
      exact Bool.noConfusion hany
    have hcf : (prefs.flatMap (fun n => players.filter (fun q => matchesName n q))).contains x = false := by
      cases hel : (prefs.flatMap (fun n => players.filter (fun q => matchesName n q))).contains x
      · rfl
      · exact absurd (mem_of_contains_eq_true hel) hnot
    rw [hcf]
    rfl
  | true => rfl

/-- Claim C2 as amended: provided every player matches at most one entry
of the preference list, the output of the ordering is a permutation of
the input, players matching earlier entries never come after players
matching later entries or after unmatched players (unmatched players
rank past the end of the preference list), and the original relative
order is preserved within each group — both within the group of each
preference entry and within the group of players matching no entry.
Without that proviso a player matching several entries is emitted once
per matching entry. -/
theorem list_players_order (prefs players : List String)
    (H : ∀ p ∈ players, prefs.countP (fun n => matchesName n p) ≤ 1) :
    (orderedPlayers prefs players).Perm players ∧
    (orderedPlayers prefs players).Pairwise (fun a b =>
      prefs.findIdx (fun n => matchesName n a) ≤ prefs.findIdx (fun n => matchesName n b)) ∧
    (∀ name, name ∈ prefs →
      (orderedPlayers prefs players).filter (fun p => matchesName name p) =
        players.filter (fun p => matchesName name p)) ∧
    (orderedPlayers prefs players).filter (fun p => !(prefs.any (fun n => matchesName n p))) =
      players.filter (fun p => !(prefs.any (fun n => matchesName n p))) := by
  refine ⟨?_, ?_, ?_, unmatched_filter prefs players⟩
  · rw [List.perm_iff_count]
    intro x
    exact count_orderedPlayers prefs players x (fun hx => H x hx)
  · unfold orderedPlayers
    rw [List.pairwise_append]
    refine ⟨pairwise_flatMap_rank players prefs H, ?_, ?_⟩
    · apply List.pairwise_of_forall_mem_list
      intro a ha b hb
      rw [rest_rank_eq_length prefs players a ha, rest_rank_eq_length prefs players b hb]
    · intro a ha b hb
      rw [rest_rank_eq_length prefs players b hb]
      exact List.findIdx_le_length _
  · intro name hname
    unfold orderedPlayers
    rw [List.filter_append, flatMap_filter_name players prefs name H hname,
      rest_filter_name prefs players name hname, List.append_nil]

/-- Counterexample to C2: with the fixed preference list, the player
"google-chrome" matches both the "chrome" and the "google-chrome"
entries and is emitted twice, so the output is not a permutation of the
input. -/
theorem list_players_duplicate_cex :
    list_players ["google-chrome"] = ["google-chrome", "google-chrome"] := by
  decide

/-- Witness for C2 as amended on a concrete player list in which every
player matches at most one preference entry; the last component keeps
the two unmatched players in their original relative order. -/
theorem list_players_order_witness :
    (orderedPlayers POLL_PLAYERS ["x.firefox.y", "vlc", "mpv"]).Perm ["x.firefox.y", "vlc", "mpv"] ∧
    (orderedPlayers POLL_PLAYERS ["x.firefox.y", "vlc", "mpv"]).Pairwise (fun a b =>
      POLL_PLAYERS.findIdx (fun n => matchesName n a) ≤
        POLL_PLAYERS.findIdx (fun n => matchesName n b)) ∧
    (orderedPlayers POLL_PLAYERS ["x.firefox.y", "vlc", "mpv"]).filter
        (fun p => matchesName "firefox" p) =
      (["x.firefox.y", "vlc", "mpv"] : List String).filter (fun p => matchesName "firefox" p) ∧
    (orderedPlayers POLL_PLAYERS ["x.firefox.y", "vlc", "mpv"]).filter
        (fun p => !(POLL_PLAYERS.any (fun n => matchesName n p))) =
      (["x.firefox.y", "vlc", "mpv"] : List String).filter
        (fun p => !(POLL_PLAYERS.any (fun n => matchesName n p))) := by
  have h := list_players_order POLL_PLAYERS ["x.firefox.y", "vlc", "mpv"] (by decide)
  exact ⟨h.1, h.2.1, h.2.2.1 "firefox" (by decide), h.2.2.2⟩

end AlbumViz
